import Mathlib

/-!
Shallow embedding of the `sss-core` and `sss-transfer-hook` Anchor programs
(solana-stablecoin-standard).  Machine integers are modelled as `Nat` with
explicit bounds: a `u64` value is a `Nat` together with the discipline that
every arithmetic step the Rust code performs with `checked_add`/`checked_mul`
is modelled by the corresponding `checked*` helper below.  Account-level
(Anchor) validation failures and SPL-token CPI failures are modelled as
dedicated error constructors, since the Rust code surfaces them as distinct
program errors.  The external SPL token ledger is modelled at its interface
boundary by the mint's `supply` counter: `mint_to` performs a checked add on
the supply, `burn` a checked sub (which is exactly SPL's own supply check).
-/

namespace SSS

def u64Max : Nat := 2 ^ 64 - 1
def u32Max : Nat := 2 ^ 32 - 1
def u128Max : Nat := 2 ^ 128 - 1

/-- `u64::checked_add`. -/
def checkedAdd64 (a b : Nat) : Option Nat :=
  if a + b ≤ u64Max then some (a + b) else none

/-- `u32::checked_add`. -/
def checkedAdd32 (a b : Nat) : Option Nat :=
  if a + b ≤ u32Max then some (a + b) else none

/-- `u128::checked_mul`. -/
def checkedMul128 (a b : Nat) : Option Nat :=
  if a * b ≤ u128Max then some (a * b) else none

/-- `u128::checked_div` — `none` exactly on a zero divisor. -/
def checkedDiv (a b : Nat) : Option Nat :=
  if b = 0 then none else some (a / b)

/-- Error kinds of `sss-core` (`error.rs`), plus the oracle-staleness error the
mint handler maps SDK failures to, plus the Anchor account-validation and SPL
CPI failures that abort a transaction before/after the handler's own checks. -/
inductive SssError where
  | paused
  | notPaused
  | supplyCapExceeded
  | unauthorized
  | invalidPreset
  | lastAdmin
  | arithmeticOverflow
  | mintMismatch
  | invalidSupplyCap
  | zeroAmount
  | invalidRole
  | invalidOracleData
  | invalidOraclePrice
  | quotaExceeded
  | nameTooLong
  | symbolTooLong
  | uriTooLong
  | oraclePriceStale
  | accountAlreadyInUse
  | accountMissing
  | splOverflow
  | splInsufficientFunds
  | splInvalidState
  deriving DecidableEq

/-- `state/role.rs` — the closed role set. -/
inductive Role where
  | admin
  | minter
  | freezer
  | pauser
  | burner
  | blacklister
  | seizer
  deriving DecidableEq, Inhabited

/-- `Role::as_u8`. -/
def Role.asU8 : Role → Nat
  | .admin => 0
  | .minter => 1
  | .freezer => 2
  | .pauser => 3
  | .burner => 4
  | .blacklister => 5
  | .seizer => 6

/-- The role-byte decoding in `handler_grant` (`manage_roles.rs`). -/
def roleFromU8 (n : Nat) : Option Role :=
  match n with
  | 0 => some .admin
  | 1 => some .minter
  | 2 => some .freezer
  | 3 => some .pauser
  | 4 => some .burner
  | 5 => some .blacklister
  | 6 => some .seizer
  | _ => none

/-- `state/role.rs` — `RoleAccount` (identities are `Nat`; the PDA bump is
derivation machinery and is not part of the logical state). -/
structure RoleRecord where
  address : Nat
  role : Role
  grantedBy : Nat
  grantedAt : Int
  mintQuota : Option Nat
  amountMinted : Nat
  deriving DecidableEq, Inhabited

/-- `state/config.rs` — `StablecoinConfig`. -/
structure StablecoinConfig where
  authority : Nat
  mint : Nat
  preset : Nat
  paused : Bool
  supplyCap : Option Nat
  totalMinted : Nat
  totalBurned : Nat
  name : String
  symbol : String
  uri : String
  decimals : Nat
  enablePermanentDelegate : Bool
  enableTransferHook : Bool
  defaultAccountFrozen : Bool
  adminCount : Nat
  deriving DecidableEq, Inhabited

/-- `StablecoinConfig::current_supply` — `total_minted.saturating_sub(total_burned)`;
`Nat` subtraction is exactly saturating subtraction. -/
def StablecoinConfig.current_supply (c : StablecoinConfig) : Nat :=
  c.totalMinted - c.totalBurned

/-- `StablecoinConfig::can_mint` (`state/config.rs`). -/
def StablecoinConfig.can_mint (c : StablecoinConfig) (amount : Nat) : Bool :=
  match checkedAdd64 c.totalMinted amount with
  | none => false
  | some newTotal =>
    match c.supplyCap with
    | some cap => decide (newTotal - c.totalBurned ≤ cap)
    | none => true

/-- The price data the mint handler reads from a Pyth `PriceUpdateV2` account:
`price : i64`, `exponent : i32`, and the publish timestamp used by the SDK's
staleness check.  The oracle service itself is external; this is its read
contract. -/
structure OracleData where
  price : Int
  expo : Int
  publishTime : Int
  deriving DecidableEq, Inhabited

/-- `ORACLE_MAX_AGE_SECS` in `mint_tokens.rs`. -/
def ORACLE_MAX_AGE_SECS : Nat := 120

/-- `adjust_cap_with_oracle` (`mint_tokens.rs`).  `now` is the clock's
`unix_timestamp`.  The SDK's `get_price_no_older_than` staleness failure is
mapped (by the handler's `map_err`) to the staleness error; the handler then
re-checks `price > 0` itself.  Rust's `10u128.pow` is modelled as an exact
`Nat` power; the two agree whenever `10^k` fits in a `u128`, which the
converter theorems assume. -/
def adjust_cap_with_oracle (usdCap : Option Nat) (oracle : OracleData)
    (now : Int) (mintDecimals : Nat) : Except SssError (Option Nat) :=
  match usdCap with
  | none => .ok none
  | some cap =>
    if oracle.publishTime < now - (ORACLE_MAX_AGE_SECS : Int) then
      .error .oraclePriceStale
    else if oracle.price ≤ 0 then
      .error .invalidOraclePrice
    else
      let priceU : Nat := oracle.price.toNat
      let decimalsPow : Nat := 10 ^ mintDecimals
      if oracle.expo < 0 then
        let absExpo : Nat := oracle.expo.natAbs
        if cap * decimalsPow ≤ u128Max then
          if cap * decimalsPow * 10 ^ absExpo ≤ u128Max then
            if priceU = 0 then .error .arithmeticOverflow
            else .ok (some (min (cap * decimalsPow * 10 ^ absExpo / priceU) u64Max))
          else .error .arithmeticOverflow
        else .error .arithmeticOverflow
      else
        let expoPow : Nat := 10 ^ oracle.expo.toNat
        if cap * decimalsPow ≤ u128Max then
          if priceU * expoPow ≤ u128Max then
            if priceU * expoPow = 0 then .error .arithmeticOverflow
            else .ok (some (min (cap * decimalsPow / (priceU * expoPow)) u64Max))
          else .error .arithmeticOverflow
        else .error .arithmeticOverflow

/-- The per-token state: the config account, the set of role PDAs, the SPL
mint's `supply` counter (the external ledger at its interface boundary), and
the set of externally frozen token accounts. -/
structure TokenState where
  config : StablecoinConfig
  roles : List RoleRecord
  mintSupply : Nat
  mintDecimals : Nat
  frozenAccounts : List Nat
  deriving DecidableEq, Inhabited

/-- Look up the role PDA for `(config, addr, role)` — PDA existence is the
authorization proof. -/
def findRole (s : TokenState) (addr : Nat) (role : Role) : Option RoleRecord :=
  s.roles.find? (fun r => decide (r.address = addr ∧ r.role = role))

/-- Write through the role PDA for `(addr, role)`. -/
def updateRole (roles : List RoleRecord) (addr : Nat) (role : Role)
    (f : RoleRecord → RoleRecord) : List RoleRecord :=
  roles.map (fun r => if r.address = addr ∧ r.role = role then f r else r)

/-- `InitializeArgs` (`initialize.rs`). -/
structure InitArgs where
  preset : Nat
  name : String
  symbol : String
  uri : String
  decimals : Nat
  supplyCap : Option Nat
  enablePermanentDelegate : Option Bool
  enableTransferHook : Option Bool
  defaultAccountFrozen : Option Bool
  deriving DecidableEq, Inhabited

/-- `handler_initialize` (`initialize.rs`).  `mintId`/`mintDecimals` describe
the externally created Token-2022 mint.  The handler assigns every config
field except `admin_count`: the account is freshly `init`-allocated by Anchor
(all bytes zero), so `admin_count` is left at `0` even though the first Admin
role PDA is created in the same instruction. -/
def initToken (authority : Nat) (args : InitArgs) (now : Int) (mintId mintDecimals : Nat) :
    Except SssError TokenState :=
  if ¬ (1 ≤ args.preset ∧ args.preset ≤ 3) then .error .invalidPreset
  else if args.name.length > 32 then .error .nameTooLong
  else if args.symbol.length > 10 then .error .symbolTooLong
  else if args.uri.length > 200 then .error .uriTooLong
  else
    let defaults : Bool × Bool × Bool :=
      match args.preset with
      | 2 => (true, true, true)
      | _ => (true, false, false)
    let cfg : StablecoinConfig :=
      { authority := authority
        mint := mintId
        preset := args.preset
        paused := false
        supplyCap := args.supplyCap
        totalMinted := 0
        totalBurned := 0
        name := args.name
        symbol := args.symbol
        uri := args.uri
        decimals := args.decimals
        enablePermanentDelegate := args.enablePermanentDelegate.getD defaults.1
        enableTransferHook := args.enableTransferHook.getD defaults.2.1
        defaultAccountFrozen := args.defaultAccountFrozen.getD defaults.2.2
        adminCount := 0 }
    let adminRole : RoleRecord :=
      { address := authority
        role := .admin
        grantedBy := authority
        grantedAt := now
        mintQuota := none
        amountMinted := 0 }
    .ok { config := cfg, roles := [adminRole], mintSupply := 0,
          mintDecimals := mintDecimals, frozenAccounts := [] }

/-- `handler_grant` (`manage_roles.rs`) with its Anchor account validation:
the caller's Admin role PDA must exist, and the grantee's role PDA is
`init`-created (failing if it already exists).  A `role = Admin` grant does a
`u32` checked add on `admin_count`. -/
def grantStep (s : TokenState) (admin grantee roleByte : Nat) (now : Int) :
    Except SssError TokenState :=
  if (findRole s admin .admin).isNone then .error .accountMissing
  else
    match roleFromU8 roleByte with
    | none => .error .invalidRole
    | some role =>
      if (findRole s grantee role).isSome then .error .accountAlreadyInUse
      else
        let newRec : RoleRecord :=
          { address := grantee
            role := role
            grantedBy := admin
            grantedAt := now
            mintQuota := none
            amountMinted := 0 }
        if role = .admin then
          if s.config.adminCount + 1 ≤ u32Max then
            .ok { s with
                  config := { s.config with adminCount := s.config.adminCount + 1 }
                  roles := newRec :: s.roles }
          else .error .arithmeticOverflow
        else
          .ok { s with roles := newRec :: s.roles }

/-- `handler_revoke` (`manage_roles.rs`): the caller's Admin role PDA must
exist; the target role PDA (identified by its `(address, role)` derivation)
must exist and is closed.  Revoking an Admin record requires
`admin_count > 1` and decrements the counter. -/
def revokeStep (s : TokenState) (admin targetAddr : Nat) (targetRole : Role) :
    Except SssError TokenState :=
  if (findRole s admin .admin).isNone then .error .accountMissing
  else
    match findRole s targetAddr targetRole with
    | none => .error .accountMissing
    | some target =>
      let remaining :=
        s.roles.filter (fun r => decide (¬ (r.address = targetAddr ∧ r.role = targetRole)))
      if target.role = .admin then
        if s.config.adminCount > 1 then
          .ok { s with
                config := { s.config with adminCount := s.config.adminCount - 1 }
                roles := remaining }
        else .error .lastAdmin
      else
        .ok { s with roles := remaining }

/-- `handler_transfer_authority` (`transfer_authority.rs`): closes the
caller's Admin role PDA, `init`-creates one for the new authority (failing if
it already exists), and updates `config.authority`.  `admin_count` is not
touched. -/
def transferAuthorityStep (s : TokenState) (admin newAuthority : Nat) (now : Int) :
    Except SssError TokenState :=
  if (findRole s admin .admin).isNone then .error .accountMissing
  else if (findRole s newAuthority .admin).isSome then .error .accountAlreadyInUse
  else
    let newRec : RoleRecord :=
      { address := newAuthority
        role := .admin
        grantedBy := admin
        grantedAt := now
        mintQuota := none
        amountMinted := 0 }
    let remaining :=
      s.roles.filter (fun r => decide (¬ (r.address = admin ∧ r.role = Role.admin)))
    .ok { s with
          config := { s.config with authority := newAuthority }
          roles := newRec :: remaining }

/-- `handler_mint_tokens` (`mint_tokens.rs`) with its Anchor validation in
account order: `!paused` on the config, then the minter's role PDA.  The
handler then checks `amount > 0`, the per-minter quota (checked add), the
(optionally oracle-adjusted) supply cap, does a checked add on
`total_minted`, performs the `mint_to` CPI (SPL does a checked add on the
mint's supply), and a checked add on the minter's `amount_minted`. -/
def mintCommit (s : TokenState) (minter amount : Nat) (minterRole : RoleRecord) :
    Except SssError TokenState :=
  if s.config.totalMinted + amount ≤ u64Max then
    if s.mintSupply + amount ≤ u64Max then
      if minterRole.amountMinted + amount ≤ u64Max then
        .ok { s with
              config := { s.config with totalMinted := s.config.totalMinted + amount }
              mintSupply := s.mintSupply + amount
              roles := updateRole s.roles minter .minter
                (fun r => { r with amountMinted := minterRole.amountMinted + amount }) }
      else .error .arithmeticOverflow
    else .error .splOverflow
  else .error .arithmeticOverflow

/-- The supply-cap check of `handler_mint_tokens` against the effective cap,
followed by the committed state updates. -/
def mintFinish (s : TokenState) (minter amount : Nat) (minterRole : RoleRecord)
    (effCap : Option Nat) : Except SssError TokenState :=
  match effCap with
  | some cap =>
    if s.config.current_supply + amount ≤ u64Max then
      if s.config.current_supply + amount ≤ cap then
        mintCommit s minter amount minterRole
      else .error .supplyCapExceeded
    else .error .arithmeticOverflow
  | none =>
    if s.config.current_supply + amount ≤ u64Max then
      mintCommit s minter amount minterRole
    else .error .supplyCapExceeded

/-- The effective-cap determination of `handler_mint_tokens`: with a price
account, the USD cap is converted; without one, the raw cap is used. -/
def mintWithCap (s : TokenState) (minter amount : Nat) (minterRole : RoleRecord)
    (oracle : Option OracleData) (now : Int) : Except SssError TokenState :=
  match oracle with
  | some od =>
    match adjust_cap_with_oracle s.config.supplyCap od now s.mintDecimals with
    | .error e => .error e
    | .ok effCap => mintFinish s minter amount minterRole effCap
  | none => mintFinish s minter amount minterRole s.config.supplyCap

/-- `handler_mint_tokens` (`mint_tokens.rs`) with its Anchor validation in
account order: `!paused` on the config, then the minter's role PDA.  The
handler then checks `amount > 0`, the per-minter quota (checked add), the
(optionally oracle-adjusted) supply cap, does a checked add on
`total_minted`, performs the `mint_to` CPI (SPL does a checked add on the
mint's supply), and a checked add on the minter's `amount_minted`.  All
checked `u64` adds are written as explicit `≤ u64Max` guards. -/
def mintStep (s : TokenState) (minter amount _toAcct : Nat)
    (oracle : Option OracleData) (now : Int) : Except SssError TokenState :=
  if s.config.paused then .error .paused
  else
    match findRole s minter .minter with
    | none => .error .accountMissing
    | some minterRole =>
      if amount = 0 then .error .zeroAmount
      else
        match minterRole.mintQuota with
        | some quota =>
          if minterRole.amountMinted + amount ≤ u64Max then
            if minterRole.amountMinted + amount ≤ quota then
              mintWithCap s minter amount minterRole oracle now
            else .error .quotaExceeded
          else .error .arithmeticOverflow
        | none => mintWithCap s minter amount minterRole oracle now

/-- `handler_burn_tokens` (`burn_tokens.rs`): `!paused`, Burner role PDA,
`amount > 0`, checked add on `total_burned`, then the `burn` CPI — SPL itself
requires a sufficient source balance and does a checked sub on the mint's
supply (modelled at supply granularity). -/
def burnStep (s : TokenState) (burner amount _fromAcct : Nat) :
    Except SssError TokenState :=
  if s.config.paused then .error .paused
  else
    match findRole s burner .burner with
    | none => .error .accountMissing
    | some _ =>
      if amount = 0 then .error .zeroAmount
      else
        if s.config.totalBurned + amount ≤ u64Max then
          if amount ≤ s.mintSupply then
            .ok { s with
                  config := { s.config with totalBurned := s.config.totalBurned + amount }
                  mintSupply := s.mintSupply - amount }
          else .error .splInsufficientFunds
        else .error .arithmeticOverflow

/-- `handler_pause` (`pause.rs`): the Anchor constraint rejects an already
paused config with `Paused`; the Pauser role PDA must exist. -/
def pauseStep (s : TokenState) (pauser : Nat) : Except SssError TokenState :=
  if s.config.paused then .error .paused
  else if (findRole s pauser .pauser).isNone then .error .accountMissing
  else .ok { s with config := { s.config with paused := true } }

/-- `handler_unpause` (`unpause.rs`): requires `paused`, else `NotPaused`. -/
def unpauseStep (s : TokenState) (pauser : Nat) : Except SssError TokenState :=
  if ¬ s.config.paused then .error .notPaused
  else if (findRole s pauser .pauser).isNone then .error .accountMissing
  else .ok { s with config := { s.config with paused := false } }

/-- `handler_seize` (`seize.rs`): the config account carries no pause
constraint — seizure deliberately works while paused.  Requires the Seizer
role PDA and `amount > 0`, then a `transfer_checked` CPI under the config's
authority; the transfer needs a sufficient source balance (at supply
granularity: `amount ≤ mintSupply`) and moves value without changing the
mint's supply. -/
def seizeStep (s : TokenState) (seizer amount _fromAcct _toAcct : Nat) :
    Except SssError TokenState :=
  match findRole s seizer .seizer with
  | none => .error .accountMissing
  | some _ =>
    if amount = 0 then .error .zeroAmount
    else if amount ≤ s.mintSupply then .ok s
    else .error .splInsufficientFunds

/-- `handler_freeze_account` (`freeze_account.rs`): `!paused`, Freezer role
PDA, then the `freeze_account` CPI (SPL rejects freezing an already frozen
account). -/
def freezeStep (s : TokenState) (freezer acct : Nat) : Except SssError TokenState :=
  if s.config.paused then .error .paused
  else
    match findRole s freezer .freezer with
    | none => .error .accountMissing
    | some _ =>
      if acct ∈ s.frozenAccounts then .error .splInvalidState
      else .ok { s with frozenAccounts := acct :: s.frozenAccounts }

/-- `handler_thaw_account` (`thaw_account.rs`): `!paused`, Freezer role PDA,
then the `thaw_account` CPI (SPL rejects thawing a non-frozen account). -/
def thawStep (s : TokenState) (freezer acct : Nat) : Except SssError TokenState :=
  if s.config.paused then .error .paused
  else
    match findRole s freezer .freezer with
    | none => .error .accountMissing
    | some _ =>
      if acct ∈ s.frozenAccounts then
        .ok { s with frozenAccounts := s.frozenAccounts.filter (fun a => decide (a ≠ acct)) }
      else .error .splInvalidState

/-- `handler_update_supply_cap` (`update_config.rs`): Admin role PDA; a
present new cap must be `≥ current_supply()`, else `InvalidSupplyCap`. -/
def updateSupplyCapStep (s : TokenState) (admin : Nat) (newCap : Option Nat) :
    Except SssError TokenState :=
  if (findRole s admin .admin).isNone then .error .accountMissing
  else
    match newCap with
    | some cap =>
      if cap ≥ s.config.current_supply then
        .ok { s with config := { s.config with supplyCap := newCap } }
      else .error .invalidSupplyCap
    | none => .ok { s with config := { s.config with supplyCap := none } }

/-- `handler_update_minter` (`update_minter.rs`): Admin role PDA; the target
must be an existing Minter role PDA of this config.  Sets `mint_quota`
without touching `amount_minted`. -/
def updateMinterQuotaStep (s : TokenState) (admin minterAddr : Nat)
    (newQuota : Option Nat) : Except SssError TokenState :=
  if (findRole s admin .admin).isNone then .error .accountMissing
  else
    match findRole s minterAddr .minter with
    | none => .error .accountMissing
    | some _ =>
      .ok { s with
            roles := updateRole s.roles minterAddr .minter
              (fun r => { r with mintQuota := newQuota }) }

/-- The program's mutating request surface after `initialize` (`lib.rs`). -/
inductive Op where
  | grant (admin grantee roleByte : Nat) (now : Int)
  | revoke (admin targetAddr : Nat) (targetRole : Role)
  | transferAuthority (admin newAuthority : Nat) (now : Int)
  | mint (minter amount toAcct : Nat) (oracle : Option OracleData) (now : Int)
  | burn (burner amount fromAcct : Nat)
  | pause (pauser : Nat)
  | unpause (pauser : Nat)
  | seize (seizer amount fromAcct toAcct : Nat)
  | freeze (freezer acct : Nat)
  | thaw (freezer acct : Nat)
  | updateSupplyCap (admin : Nat) (newCap : Option Nat)
  | updateMinterQuota (admin minterAddr : Nat) (newQuota : Option Nat)
  deriving DecidableEq, Inhabited

/-- One atomic, serialized request against the per-token state. -/
def step (s : TokenState) : Op → Except SssError TokenState
  | .grant admin grantee roleByte now => grantStep s admin grantee roleByte now
  | .revoke admin targetAddr targetRole => revokeStep s admin targetAddr targetRole
  | .transferAuthority admin newAuthority now => transferAuthorityStep s admin newAuthority now
  | .mint minter amount toAcct oracle now => mintStep s minter amount toAcct oracle now
  | .burn burner amount fromAcct => burnStep s burner amount fromAcct
  | .pause pauser => pauseStep s pauser
  | .unpause pauser => unpauseStep s pauser
  | .seize seizer amount fromAcct toAcct => seizeStep s seizer amount fromAcct toAcct
  | .freeze freezer acct => freezeStep s freezer acct
  | .thaw freezer acct => thawStep s freezer acct
  | .updateSupplyCap admin newCap => updateSupplyCapStep s admin newCap
  | .updateMinterQuota admin minterAddr newQuota => updateMinterQuotaStep s admin minterAddr newQuota

/-- States reachable from a successful `initialize` by committed operations
whose requests all satisfy the filter `P`. -/
inductive ReachableW (P : Op → Prop) : TokenState → Prop where
  | init (authority : Nat) (args : InitArgs) (now : Int) (mintId mintDecimals : Nat)
      (s : TokenState) :
      initToken authority args now mintId mintDecimals = .ok s → ReachableW P s
  | next {s s' : TokenState} (op : Op) :
      ReachableW P s → P op → step s op = .ok s' → ReachableW P s'

/-- All reachable states. -/
def Reachable (s : TokenState) : Prop := ReachableW (fun _ => True) s

/-- `sss-transfer-hook/src/error.rs`. -/
inductive TransferHookError where
  | senderBlacklisted
  | receiverBlacklisted
  | reasonTooLong
  | unauthorized
  deriving DecidableEq

/-- What the transfer hook sees of an account occupying a derived deny-list
address: its data length (`data_is_empty` ⟺ length 0) and its owning
program. -/
structure HookAccount where
  dataLen : Nat
  owner : Nat
  deriving DecidableEq, Inhabited

/-- `handler_transfer_hook` (`transfer_hook.rs`): a side is denied exactly
when the account at its derived deny-list address has data and is owned by
this program; the sender is checked first. -/
def handler_transfer_hook (programId : Nat) (senderBl receiverBl : HookAccount)
    (_amount : Nat) : Except TransferHookError Unit :=
  if ¬ senderBl.dataLen = 0 ∧ senderBl.owner = programId then
    .error .senderBlacklisted
  else if ¬ receiverBl.dataLen = 0 ∧ receiverBl.owner = programId then
    .error .receiverBlacklisted
  else
    .ok ()

/-! ## Invariants of the state machine -/

/-- The key under which a role PDA is derived: `(holder, role)` (the config
component is fixed in the per-token model). -/
def roleKey (r : RoleRecord) : Nat × Role := (r.address, r.role)

/-- Facts that hold in every reachable state and are needed to relate the
engine's counters to the external ledger:
the mint's supply equals `total_minted − total_burned` (as an exact equation,
`mintSupply + totalBurned = totalMinted`), every role record's cumulative
minted amount is bounded by `total_minted`, and role PDA keys are unique. -/
def GoodState (s : TokenState) : Prop :=
  s.mintSupply + s.config.totalBurned = s.config.totalMinted ∧
  (∀ r ∈ s.roles, r.amountMinted ≤ s.config.totalMinted) ∧
  (s.roles.map roleKey).Nodup

/-- The per-minter quota invariant. -/
def QuotaInv (s : TokenState) : Prop :=
  ∀ r ∈ s.roles, ∀ q, r.mintQuota = some q → r.amountMinted ≤ q

/-- The supply-cap invariant. -/
def CapInv (s : TokenState) : Prop :=
  ∀ cap, s.config.supplyCap = some cap → s.config.current_supply ≤ cap

/-! ### Helper lemmas about role lookups and updates -/

theorem findRole_mem {s : TokenState} {a : Nat} {ro : Role} {r : RoleRecord}
    (h : findRole s a ro = some r) : r ∈ s.roles ∧ r.address = a ∧ r.role = ro := by
  unfold findRole at h
  refine ⟨List.mem_of_find?_eq_some h, ?_⟩
  have := List.find?_some h
  simpa using this

theorem findRole_none {s : TokenState} {a : Nat} {ro : Role}
    (h : findRole s a ro = none) :
    ∀ r ∈ s.roles, ¬ (r.address = a ∧ r.role = ro) := by
  unfold findRole at h
  intro r hr
  have := List.find?_eq_none.mp h r hr
  simpa using this

theorem updateRole_map_roleKey (roles : List RoleRecord) (a : Nat) (ro : Role)
    (f : RoleRecord → RoleRecord) (hf : ∀ r, roleKey (f r) = roleKey r) :
    (updateRole roles a ro f).map roleKey = roles.map roleKey := by
  unfold updateRole
  rw [List.map_map]
  apply List.map_congr_left
  intro r _
  by_cases h : r.address = a ∧ r.role = ro <;> simp [h, hf]

theorem mem_updateRole {roles : List RoleRecord} {a : Nat} {ro : Role}
    {f : RoleRecord → RoleRecord} {r' : RoleRecord}
    (h : r' ∈ updateRole roles a ro f) :
    ∃ r ∈ roles, r' = f r ∨ r' = r := by
  unfold updateRole at h
  obtain ⟨r, hr, hfr⟩ := List.mem_map.mp h
  refine ⟨r, hr, ?_⟩
  by_cases hc : r.address = a ∧ r.role = ro
  · simp [hc] at hfr; exact Or.inl hfr.symm
  · simp [hc] at hfr; exact Or.inr hfr.symm

theorem eq_of_mem_key {s : TokenState} {a : Nat} {ro : Role}
    {m r : RoleRecord} (hnd : (s.roles.map roleKey).Nodup)
    (hf : findRole s a ro = some m) (hr : r ∈ s.roles)
    (ha : r.address = a) (hro : r.role = ro) : r = m := by
  obtain ⟨hm, hma, hmro⟩ := findRole_mem hf
  exact List.inj_on_of_nodup_map hnd hr hm (by
    unfold roleKey
    rw [ha, hro, hma, hmro])

/-! ### Preservation of `GoodState` by each operation -/

theorem goodState_grantStep {s s' : TokenState} {a g rb : Nat} {now : Int}
    (hg : GoodState s) (h : grantStep s a g rb now = .ok s') : GoodState s' := by
  obtain ⟨hsup, hamt, hnd⟩ := hg
  unfold grantStep at h
  split at h
  · simp at h
  · split at h
    · simp at h
    · rename_i role hrole
      split at h
      · simp at h
      · rename_i hnew
        have hnone : findRole s g role = none :=
          Option.not_isSome_iff_eq_none.mp (by simpa using hnew)
        have hkey : ∀ r ∈ s.roles, r.address = g → ¬ r.role = role :=
          fun r hr hra hro => findRole_none hnone r hr ⟨hra, hro⟩
        split at h
        · split at h
          · cases h
            refine ⟨by simpa using hsup, ?_, ?_⟩
            · intro r hr
              rcases List.mem_cons.mp hr with h1 | h1
              · subst h1; exact Nat.zero_le _
              · exact hamt r h1
            · simpa [roleKey] using ⟨hkey, hnd⟩
          · simp at h
        · cases h
          refine ⟨by simpa using hsup, ?_, ?_⟩
          · intro r hr
            rcases List.mem_cons.mp hr with h1 | h1
            · subst h1; exact Nat.zero_le _
            · exact hamt r h1
          · simpa [roleKey] using ⟨hkey, hnd⟩

theorem goodState_revokeStep {s s' : TokenState} {a t : Nat} {ro : Role}
    (hg : GoodState s) (h : revokeStep s a t ro = .ok s') : GoodState s' := by
  obtain ⟨hsup, hamt, hnd⟩ := hg
  unfold revokeStep at h
  split at h
  · simp at h
  · split at h
    · simp at h
    · have hfil : ∀ (roles : List RoleRecord),
          roles = s.roles.filter (fun r => decide (¬ (r.address = t ∧ r.role = ro))) →
          (∀ r ∈ roles, r.amountMinted ≤ s.config.totalMinted) ∧
          (roles.map roleKey).Nodup := by
        intro roles hroles
        subst hroles
        constructor
        · intro r hr
          exact hamt r (List.mem_of_mem_filter hr)
        · exact List.Nodup.sublist (List.Sublist.map roleKey (List.filter_sublist _)) hnd
      split at h
      · split at h
        · cases h
          exact ⟨by simpa using hsup, (hfil _ rfl).1, (hfil _ rfl).2⟩
        · simp at h
      · cases h
        exact ⟨by simpa using hsup, (hfil _ rfl).1, (hfil _ rfl).2⟩

theorem goodState_transferAuthorityStep {s s' : TokenState} {a n : Nat} {now : Int}
    (hg : GoodState s) (h : transferAuthorityStep s a n now = .ok s') : GoodState s' := by
  obtain ⟨hsup, hamt, hnd⟩ := hg
  unfold transferAuthorityStep at h
  split at h
  · simp at h
  · split at h
    · simp at h
    · rename_i hnew
      have hnone : findRole s n .admin = none :=
        Option.not_isSome_iff_eq_none.mp (by simpa using hnew)
      cases h
      have hsub : (s.roles.filter
            (fun r => decide (¬ (r.address = a ∧ r.role = Role.admin)))).map roleKey |>.Nodup :=
        List.Nodup.sublist (List.Sublist.map roleKey (List.filter_sublist _)) hnd
      refine ⟨by simpa using hsup, ?_, ?_⟩
      · intro r hr
        rcases List.mem_cons.mp hr with h1 | h1
        · subst h1; exact Nat.zero_le _
        · exact hamt r (List.mem_of_mem_filter h1)
      · refine List.Nodup.cons ?_ hsub
        intro hmem
        obtain ⟨r, hr, hkr⟩ := List.mem_map.mp hmem
        exact findRole_none hnone r (List.mem_of_mem_filter hr)
          ⟨congrArg Prod.fst hkr, congrArg Prod.snd hkr⟩

theorem goodState_pauseStep {s s' : TokenState} {p : Nat}
    (hg : GoodState s) (h : pauseStep s p = .ok s') : GoodState s' := by
  obtain ⟨hsup, hamt, hnd⟩ := hg
  unfold pauseStep at h
  split at h
  · simp at h
  · split at h
    · simp at h
    · cases h; exact ⟨by simpa using hsup, hamt, hnd⟩

theorem goodState_unpauseStep {s s' : TokenState} {p : Nat}
    (hg : GoodState s) (h : unpauseStep s p = .ok s') : GoodState s' := by
  obtain ⟨hsup, hamt, hnd⟩ := hg
  unfold unpauseStep at h
  split at h
  · simp at h
  · split at h
    · simp at h
    · cases h; exact ⟨by simpa using hsup, hamt, hnd⟩

theorem goodState_seizeStep {s s' : TokenState} {z amt f t : Nat}
    (hg : GoodState s) (h : seizeStep s z amt f t = .ok s') : GoodState s' := by
  unfold seizeStep at h
  split at h
  · simp at h
  · split at h
    · simp at h
    · split at h
      · cases h; exact hg
      · simp at h

theorem goodState_freezeStep {s s' : TokenState} {f acct : Nat}
    (hg : GoodState s) (h : freezeStep s f acct = .ok s') : GoodState s' := by
  obtain ⟨hsup, hamt, hnd⟩ := hg
  unfold freezeStep at h
  split at h
  · simp at h
  · split at h
    · simp at h
    · split at h
      · simp at h
      · cases h; exact ⟨by simpa using hsup, hamt, hnd⟩

theorem goodState_thawStep {s s' : TokenState} {f acct : Nat}
    (hg : GoodState s) (h : thawStep s f acct = .ok s') : GoodState s' := by
  obtain ⟨hsup, hamt, hnd⟩ := hg
  unfold thawStep at h
  split at h
  · simp at h
  · split at h
    · simp at h
    · split at h
      · cases h; exact ⟨by simpa using hsup, hamt, hnd⟩
      · simp at h

theorem goodState_updateSupplyCapStep {s s' : TokenState} {a : Nat} {c : Option Nat}
    (hg : GoodState s) (h : updateSupplyCapStep s a c = .ok s') : GoodState s' := by
  obtain ⟨hsup, hamt, hnd⟩ := hg
  unfold updateSupplyCapStep at h
  split at h
  · simp at h
  · split at h
    · split at h
      · cases h; exact ⟨by simpa using hsup, hamt, hnd⟩
      · simp at h
    · cases h; exact ⟨by simpa using hsup, hamt, hnd⟩

theorem goodState_burnStep {s s' : TokenState} {b amt f : Nat}
    (hg : GoodState s) (h : burnStep s b amt f = .ok s') : GoodState s' := by
  obtain ⟨hsup, hamt, hnd⟩ := hg
  unfold burnStep at h
  split at h
  · simp at h
  · split at h
    · simp at h
    · split at h
      · simp at h
      · split at h
        · split at h
          · rename_i hfits hbal
            cases h
            refine ⟨?_, fun r hr => hamt r hr, hnd⟩
            simp only
            omega
          · simp at h
        · simp at h

theorem goodState_mintCommit {s s' : TokenState} {m amt : Nat} {mr : RoleRecord}
    (hg : GoodState s) (hmem : mr ∈ s.roles)
    (h : mintCommit s m amt mr = .ok s') : GoodState s' := by
  obtain ⟨hsup, hamt, hnd⟩ := hg
  unfold mintCommit at h
  split at h
  · split at h
    · split at h
      · cases h
        refine ⟨by simp only; omega, ?_, ?_⟩
        · intro r hr
          obtain ⟨r0, hr0, hcase⟩ := mem_updateRole hr
          have hb := hamt mr hmem
          have hr0b := hamt r0 hr0
          rcases hcase with hcase | hcase <;> rw [hcase] <;> simp only <;> omega
        · show (List.map roleKey (updateRole s.roles m Role.minter
            (fun r => { r with amountMinted := mr.amountMinted + amt }))).Nodup
          rw [updateRole_map_roleKey s.roles m Role.minter
            (fun r => { r with amountMinted := mr.amountMinted + amt }) (fun r => rfl)]
          exact hnd
      · simp at h
    · simp at h
  · simp at h

theorem goodState_mintFinish {s s' : TokenState} {m amt : Nat} {mr : RoleRecord}
    {effCap : Option Nat} (hg : GoodState s) (hmem : mr ∈ s.roles)
    (h : mintFinish s m amt mr effCap = .ok s') : GoodState s' := by
  unfold mintFinish at h
  split at h
  · split at h
    · split at h
      · exact goodState_mintCommit hg hmem h
      · simp at h
    · simp at h
  · split at h
    · exact goodState_mintCommit hg hmem h
    · simp at h

theorem goodState_mintWithCap {s s' : TokenState} {m amt : Nat} {mr : RoleRecord}
    {oracle : Option OracleData} {now : Int} (hg : GoodState s) (hmem : mr ∈ s.roles)
    (h : mintWithCap s m amt mr oracle now = .ok s') : GoodState s' := by
  unfold mintWithCap at h
  split at h
  · split at h
    · simp at h
    · exact goodState_mintFinish hg hmem h
  · exact goodState_mintFinish hg hmem h

theorem goodState_mintStep {s s' : TokenState} {m amt t : Nat}
    {oracle : Option OracleData} {now : Int}
    (hg : GoodState s) (h : mintStep s m amt t oracle now = .ok s') : GoodState s' := by
  unfold mintStep at h
  split at h
  · simp at h
  · split at h
    · simp at h
    · rename_i mr hfind
      have hmem := (findRole_mem hfind).1
      split at h
      · simp at h
      · split at h
        · split at h
          · split at h
            · exact goodState_mintWithCap hg hmem h
            · simp at h
          · simp at h
        · exact goodState_mintWithCap hg hmem h

theorem goodState_updateMinterQuotaStep {s s' : TokenState} {a m : Nat}
    {q : Option Nat} (hg : GoodState s)
    (h : updateMinterQuotaStep s a m q = .ok s') : GoodState s' := by
  obtain ⟨hsup, hamt, hnd⟩ := hg
  unfold updateMinterQuotaStep at h
  split at h
  · simp at h
  · split at h
    · simp at h
    · cases h
      refine ⟨by simpa using hsup, ?_, ?_⟩
      · intro r hr
        obtain ⟨r0, hr0, hcase⟩ := mem_updateRole hr
        have hr0b := hamt r0 hr0
        rcases hcase with hcase | hcase <;> rw [hcase] <;> simp only <;> omega
      · show (List.map roleKey (updateRole s.roles m Role.minter
          (fun r => { r with mintQuota := q }))).Nodup
        rw [updateRole_map_roleKey s.roles m Role.minter
          (fun r => { r with mintQuota := q }) (fun r => rfl)]
        exact hnd

theorem goodState_initToken {authority : Nat} {args : InitArgs} {now : Int}
    {mintId mintDecimals : Nat} {s : TokenState}
    (h : initToken authority args now mintId mintDecimals = .ok s) : GoodState s := by
  unfold initToken at h
  split at h
  · simp at h
  · split at h
    · simp at h
    · split at h
      · simp at h
      · split at h
        · simp at h
        · cases h
          refine ⟨rfl, ?_, by simp⟩
          intro r hr
          rcases List.mem_singleton.mp hr with h1
          subst h1
          exact Nat.le_refl 0

theorem goodState_step {s s' : TokenState} {op : Op}
    (hg : GoodState s) (h : step s op = .ok s') : GoodState s' := by
  cases op with
  | grant a g rb now => exact goodState_grantStep hg h
  | revoke a t ro => exact goodState_revokeStep hg h
  | transferAuthority a n now => exact goodState_transferAuthorityStep hg h
  | mint m amt t oracle now => exact goodState_mintStep (t := t) hg h
  | burn b amt f => exact goodState_burnStep (f := f) hg h
  | pause p => exact goodState_pauseStep hg h
  | unpause p => exact goodState_unpauseStep hg h
  | seize z amt f t => exact goodState_seizeStep (f := f) (t := t) hg h
  | freeze f acct => exact goodState_freezeStep hg h
  | thaw f acct => exact goodState_thawStep hg h
  | updateSupplyCap a c => exact goodState_updateSupplyCapStep hg h
  | updateMinterQuota a m q => exact goodState_updateMinterQuotaStep hg h

/-- Every reachable state (under any request filter) satisfies `GoodState`. -/
theorem reachable_goodState {P : Op → Prop} {s : TokenState}
    (h : ReachableW P s) : GoodState s := by
  induction h with
  | init authority args now mintId mintDecimals s h0 => exact goodState_initToken h0
  | next op _ _ hstep ih => exact goodState_step ih hstep

/-! ### Preservation of the cap invariant (without oracle-assisted mints) -/

/-- Requests whose mint operations carry no oracle price account. -/
def noOracleMint : Op → Prop
  | .mint _ _ _ (some _) _ => False
  | _ => True

theorem mem_updateRole_key {roles : List RoleRecord} {a : Nat} {ro : Role}
    {f : RoleRecord → RoleRecord} {r' : RoleRecord}
    (h : r' ∈ updateRole roles a ro f) :
    ∃ r ∈ roles, (r.address = a ∧ r.role = ro ∧ r' = f r) ∨ r' = r := by
  unfold updateRole at h
  obtain ⟨r, hr, hfr⟩ := List.mem_map.mp h
  refine ⟨r, hr, ?_⟩
  by_cases hc : r.address = a ∧ r.role = ro
  · simp [hc] at hfr
    exact Or.inl ⟨hc.1, hc.2, hfr.symm⟩
  · simp [hc] at hfr
    exact Or.inr hfr.symm

theorem capInv_mintCommit {s s' : TokenState} {m amt : Nat} {mr : RoleRecord}
    (hg : GoodState s)
    (hcap : ∀ cap, s.config.supplyCap = some cap → s.config.current_supply + amt ≤ cap)
    (h : mintCommit s m amt mr = .ok s') : CapInv s' := by
  obtain ⟨hsup, _, _⟩ := hg
  unfold mintCommit at h
  split at h
  · split at h
    · split at h
      · cases h
        intro cap hc
        have := hcap cap hc
        unfold StablecoinConfig.current_supply at *
        simp only at *
        omega
      · simp at h
    · simp at h
  · simp at h

theorem capInv_mintFinish {s s' : TokenState} {m amt : Nat} {mr : RoleRecord}
    (hg : GoodState s)
    (h : mintFinish s m amt mr s.config.supplyCap = .ok s') : CapInv s' := by
  unfold mintFinish at h
  split at h
  · rename_i cap hcap
    split at h
    · split at h
      · rename_i hle
        refine capInv_mintCommit hg ?_ h
        intro cap' hcap'
        rw [hcap] at hcap'
        cases hcap'
        exact hle
      · simp at h
    · simp at h
  · rename_i hnone
    split at h
    · refine capInv_mintCommit hg ?_ h
      intro cap' hcap'
      rw [hnone] at hcap'
      cases hcap'
    · simp at h

theorem capInv_mintStep_noOracle {s s' : TokenState} {m amt t : Nat} {now : Int}
    (hg : GoodState s) (h : mintStep s m amt t none now = .ok s') : CapInv s' := by
  unfold mintStep at h
  split at h
  · simp at h
  · split at h
    · simp at h
    · split at h
      · simp at h
      · split at h
        · split at h
          · split at h
            · unfold mintWithCap at h
              exact capInv_mintFinish hg h
            · simp at h
          · simp at h
        · unfold mintWithCap at h
          exact capInv_mintFinish hg h

theorem capInv_step {s s' : TokenState} {op : Op} (hop : noOracleMint op)
    (hg : GoodState s) (hc : CapInv s) (h : step s op = .ok s') : CapInv s' := by
  cases op with
  | grant a g rb now =>
    simp only [step] at h
    unfold grantStep at h
    split at h
    · simp at h
    · split at h
      · simp at h
      · split at h
        · simp at h
        · split at h
          · split at h
            · cases h; exact hc
            · simp at h
          · cases h; exact hc
  | revoke a t ro =>
    simp only [step] at h
    unfold revokeStep at h
    split at h
    · simp at h
    · split at h
      · simp at h
      · split at h
        · split at h
          · cases h; exact hc
          · simp at h
        · cases h; exact hc
  | transferAuthority a n now =>
    simp only [step] at h
    unfold transferAuthorityStep at h
    split at h
    · simp at h
    · split at h
      · simp at h
      · cases h; exact hc
  | mint m amt t oracle now =>
    cases oracle with
    | some od => exact absurd hop (by simp [noOracleMint])
    | none => exact capInv_mintStep_noOracle (t := t) hg h
  | burn b amt f =>
    simp only [step] at h
    unfold burnStep at h
    split at h
    · simp at h
    · split at h
      · simp at h
      · split at h
        · simp at h
        · split at h
          · split at h
            · cases h
              intro cap hcap
              have := hc cap hcap
              unfold StablecoinConfig.current_supply at *
              simp only at *
              omega
            · simp at h
          · simp at h
  | pause p =>
    simp only [step] at h
    unfold pauseStep at h
    split at h
    · simp at h
    · split at h
      · simp at h
      · cases h; exact hc
  | unpause p =>
    simp only [step] at h
    unfold unpauseStep at h
    split at h
    · simp at h
    · split at h
      · simp at h
      · cases h; exact hc
  | seize z amt f t =>
    simp only [step] at h
    unfold seizeStep at h
    split at h
    · simp at h
    · split at h
      · simp at h
      · split at h
        · cases h; exact hc
        · simp at h
  | freeze f acct =>
    simp only [step] at h
    unfold freezeStep at h
    split at h
    · simp at h
    · split at h
      · simp at h
      · split at h
        · simp at h
        · cases h; exact hc
  | thaw f acct =>
    simp only [step] at h
    unfold thawStep at h
    split at h
    · simp at h
    · split at h
      · simp at h
      · split at h
        · cases h; exact hc
        · simp at h
  | updateSupplyCap a c =>
    simp only [step] at h
    unfold updateSupplyCapStep at h
    split at h
    · simp at h
    · split at h
      · split at h
        · rename_i cap hge
          cases h
          intro cap' hcap'
          simp only at hcap'
          cases hcap'
          exact hge
        · simp at h
      · cases h
        intro cap' hcap'
        simp only at hcap'
        cases hcap'
  | updateMinterQuota a mAddr q =>
    simp only [step] at h
    unfold updateMinterQuotaStep at h
    split at h
    · simp at h
    · split at h
      · simp at h
      · cases h; exact hc

theorem capInv_initToken {authority : Nat} {args : InitArgs} {now : Int}
    {mintId mintDecimals : Nat} {s : TokenState}
    (h : initToken authority args now mintId mintDecimals = .ok s) : CapInv s := by
  unfold initToken at h
  split at h
  · simp at h
  · split at h
    · simp at h
    · split at h
      · simp at h
      · split at h
        · simp at h
        · cases h
          intro cap _
          exact Nat.zero_le cap

/-- Every state reachable without oracle-assisted mints satisfies the cap
invariant. -/
theorem reachable_capInv {s : TokenState} (h : ReachableW noOracleMint s) :
    CapInv s := by
  induction h with
  | init authority args now mintId mintDecimals s h0 => exact capInv_initToken h0
  | next op hreach hop hstep ih =>
    exact capInv_step hop (reachable_goodState hreach) ih hstep

/-! ### Preservation of the per-minter quota invariant (without quota updates) -/

/-- Requests other than `update_minter` quota changes. -/
def notQuotaUpdate : Op → Prop
  | .updateMinterQuota _ _ _ => False
  | _ => True

theorem quotaInv_mintCommit {s s' : TokenState} {m amt : Nat} {mr : RoleRecord}
    (hg : GoodState s) (hfind : findRole s m .minter = some mr)
    (hq : QuotaInv s) (hqc : ∀ q, mr.mintQuota = some q → mr.amountMinted + amt ≤ q)
    (h : mintCommit s m amt mr = .ok s') : QuotaInv s' := by
  obtain ⟨_, _, hnd⟩ := hg
  unfold mintCommit at h
  split at h
  · split at h
    · split at h
      · cases h
        intro r hr q hrq
        obtain ⟨r0, hr0, hcase⟩ := mem_updateRole_key hr
        rcases hcase with ⟨ha, hro, hfr⟩ | hfr
        · have hr0mr : r0 = mr := eq_of_mem_key hnd hfind hr0 ha hro
          subst hr0mr
          subst hfr
          simp only at hrq ⊢
          exact hqc q hrq
        · subst hfr
          exact hq _ hr0 q hrq
      · simp at h
    · simp at h
  · simp at h

theorem quotaInv_mintFinish {s s' : TokenState} {m amt : Nat} {mr : RoleRecord}
    {effCap : Option Nat} (hg : GoodState s) (hfind : findRole s m .minter = some mr)
    (hq : QuotaInv s) (hqc : ∀ q, mr.mintQuota = some q → mr.amountMinted + amt ≤ q)
    (h : mintFinish s m amt mr effCap = .ok s') : QuotaInv s' := by
  unfold mintFinish at h
  split at h
  · split at h
    · split at h
      · exact quotaInv_mintCommit hg hfind hq hqc h
      · simp at h
    · simp at h
  · split at h
    · exact quotaInv_mintCommit hg hfind hq hqc h
    · simp at h

theorem quotaInv_mintWithCap {s s' : TokenState} {m amt : Nat} {mr : RoleRecord}
    {oracle : Option OracleData} {now : Int}
    (hg : GoodState s) (hfind : findRole s m .minter = some mr)
    (hq : QuotaInv s) (hqc : ∀ q, mr.mintQuota = some q → mr.amountMinted + amt ≤ q)
    (h : mintWithCap s m amt mr oracle now = .ok s') : QuotaInv s' := by
  unfold mintWithCap at h
  split at h
  · split at h
    · simp at h
    · exact quotaInv_mintFinish hg hfind hq hqc h
  · exact quotaInv_mintFinish hg hfind hq hqc h

theorem quotaInv_mintStep {s s' : TokenState} {m amt t : Nat}
    {oracle : Option OracleData} {now : Int}
    (hg : GoodState s) (hq : QuotaInv s)
    (h : mintStep s m amt t oracle now = .ok s') : QuotaInv s' := by
  unfold mintStep at h
  split at h
  · simp at h
  · split at h
    · simp at h
    · rename_i mr hfind
      split at h
      · simp at h
      · split at h
        · rename_i quota hquota
          split at h
          · split at h
            · rename_i hle
              refine quotaInv_mintWithCap hg hfind hq ?_ h
              intro q hqx
              rw [hquota] at hqx
              cases hqx
              exact hle
            · simp at h
          · simp at h
        · rename_i hquota
          refine quotaInv_mintWithCap hg hfind hq ?_ h
          intro q hqx
          rw [hquota] at hqx
          cases hqx

theorem quotaInv_step {s s' : TokenState} {op : Op} (hop : notQuotaUpdate op)
    (hg : GoodState s) (hq : QuotaInv s) (h : step s op = .ok s') : QuotaInv s' := by
  cases op with
  | grant a g rb now =>
    simp only [step] at h
    unfold grantStep at h
    split at h
    · simp at h
    · split at h
      · simp at h
      · split at h
        · simp at h
        · have hnew : ∀ (s₁ : TokenState) (rec : RoleRecord),
              rec.mintQuota = none → s₁.roles = s.roles →
              ∀ r ∈ rec :: s₁.roles, ∀ q, r.mintQuota = some q → r.amountMinted ≤ q := by
            intro s₁ rec hrec hs₁ r hr q hrq
            rcases List.mem_cons.mp hr with h1 | h1
            · subst h1
              rw [hrec] at hrq
              cases hrq
            · rw [hs₁] at h1
              exact hq r h1 q hrq
          split at h
          · split at h
            · cases h
              intro r hr q hrq
              rcases List.mem_cons.mp hr with h1 | h1
              · subst h1; simp at hrq
              · exact hq r h1 q hrq
            · simp at h
          · cases h
            intro r hr q hrq
            rcases List.mem_cons.mp hr with h1 | h1
            · subst h1; simp at hrq
            · exact hq r h1 q hrq
  | revoke a t ro =>
    simp only [step] at h
    unfold revokeStep at h
    split at h
    · simp at h
    · split at h
      · simp at h
      · split at h
        · split at h
          · cases h
            intro r hr q hrq
            exact hq r (List.mem_of_mem_filter hr) q hrq
          · simp at h
        · cases h
          intro r hr q hrq
          exact hq r (List.mem_of_mem_filter hr) q hrq
  | transferAuthority a n now =>
    simp only [step] at h
    unfold transferAuthorityStep at h
    split at h
    · simp at h
    · split at h
      · simp at h
      · cases h
        intro r hr q hrq
        rcases List.mem_cons.mp hr with h1 | h1
        · subst h1; simp at hrq
        · exact hq r (List.mem_of_mem_filter h1) q hrq
  | mint m amt t oracle now => exact quotaInv_mintStep (t := t) hg hq h
  | burn b amt f =>
    simp only [step] at h
    unfold burnStep at h
    split at h
    · simp at h
    · split at h
      · simp at h
      · split at h
        · simp at h
        · split at h
          · split at h
            · cases h; exact hq
            · simp at h
          · simp at h
  | pause p =>
    simp only [step] at h
    unfold pauseStep at h
    split at h
    · simp at h
    · split at h
      · simp at h
      · cases h; exact hq
  | unpause p =>
    simp only [step] at h
    unfold unpauseStep at h
    split at h
    · simp at h
    · split at h
      · simp at h
      · cases h; exact hq
  | seize z amt f t =>
    simp only [step] at h
    unfold seizeStep at h
    split at h
    · simp at h
    · split at h
      · simp at h
      · split at h
        · cases h; exact hq
        · simp at h
  | freeze f acct =>
    simp only [step] at h
    unfold freezeStep at h
    split at h
    · simp at h
    · split at h
      · simp at h
      · split at h
        · simp at h
        · cases h; exact hq
  | thaw f acct =>
    simp only [step] at h
    unfold thawStep at h
    split at h
    · simp at h
    · split at h
      · simp at h
      · split at h
        · cases h; exact hq
        · simp at h
  | updateSupplyCap a c =>
    simp only [step] at h
    unfold updateSupplyCapStep at h
    split at h
    · simp at h
    · split at h
      · split at h
        · cases h; exact hq
        · simp at h
      · cases h; exact hq
  | updateMinterQuota a mAddr q => exact absurd hop (by simp [notQuotaUpdate])

theorem quotaInv_initToken {authority : Nat} {args : InitArgs} {now : Int}
    {mintId mintDecimals : Nat} {s : TokenState}
    (h : initToken authority args now mintId mintDecimals = .ok s) : QuotaInv s := by
  unfold initToken at h
  split at h
  · simp at h
  · split at h
    · simp at h
    · split at h
      · simp at h
      · split at h
        · simp at h
        · cases h
          intro r hr q hrq
          rcases List.mem_singleton.mp hr with h1
          subst h1
          simp at hrq

/-- Every state reachable without quota-update requests satisfies the
per-minter quota invariant. -/
theorem reachable_quotaInv {s : TokenState} (h : ReachableW notQuotaUpdate s) :
    QuotaInv s := by
  induction h with
  | init authority args now mintId mintDecimals s h0 => exact quotaInv_initToken h0
  | next op hreach hop hstep ih =>
    exact quotaInv_step hop (reachable_goodState hreach) ih hstep

/-! ### Concrete example states used by claim theorems and witnesses -/

/-- A minimal valid `initialize` argument set: preset 1, no supply cap. -/
def baseArgs : InitArgs :=
  { preset := 1, name := "USD", symbol := "USD", uri := "u", decimals := 6,
    supplyCap := none, enablePermanentDelegate := none,
    enableTransferHook := none, defaultAccountFrozen := none }

/-- The state after `initialize` by authority 1 on mint 50 (decimals 6). -/
def baseState : TokenState :=
  (initToken 1 baseArgs 0 50 6).toOption.getD default

/-- `baseState` after granting a Minter capability to address 2. -/
def baseMinterState : TokenState :=
  (step baseState (.grant 1 2 1 0)).toOption.getD default

/-- `baseMinterState` after address 2 mints 100 base units (no quota set). -/
def baseMintedState : TokenState :=
  (step baseMinterState (.mint 2 100 100 none 0)).toOption.getD default

/-- `baseMintedState` after the admin lowers minter 2's quota to 50. -/
def quotaLoweredState : TokenState :=
  (step baseMintedState (.updateMinterQuota 1 2 (some 50))).toOption.getD default

/-- Claim C1: after `handler_initialize` the claim expects `admin_count = 1`
(and `≥ 1`).  The handler creates the first Admin role PDA but never assigns
`admin_count`, which stays at the Anchor-zeroed value `0`: the claimed
invariant is already false in the initial state. -/
theorem c1_admin_count_zero_after_init :
    initToken 1 baseArgs 0 50 6 = .ok baseState ∧
    (findRole baseState 1 .admin).isSome = true ∧
    baseState.config.adminCount = 0 ∧
    ¬ 1 ≤ baseState.config.adminCount := by
  refine ⟨rfl, by decide, by decide, by decide⟩

/-- Claim C2: from a fresh token whose creator (address 1) is the sole Admin:
(i) self-revocation of the Admin capability fails with `LastAdmin` (this part
matches the claim), but (ii) after granting a second Admin capability to
address 2, revoking the first Admin capability still fails with `LastAdmin`
and `admin_count` is 1 rather than 2, because `handler_initialize` left
`admin_count = 0`. -/
theorem c2_last_admin_trace :
    step baseState (.revoke 1 1 .admin) = .error .lastAdmin ∧
    (∃ s1, step baseState (.grant 1 2 0 0) = .ok s1 ∧
      s1.config.adminCount = 1 ∧
      step s1 (.revoke 1 1 .admin) = .error .lastAdmin) := by
  refine ⟨rfl, ⟨(step baseState (.grant 1 2 0 0)).toOption.getD default,
    rfl, by decide, rfl⟩⟩

/-- Claim C6: in every reachable state, `total_burned ≤ total_minted`. -/
theorem c6_burn_invariant (s : TokenState) (h : Reachable s) :
    s.config.totalBurned ≤ s.config.totalMinted := by
  obtain ⟨h1, _, _⟩ := reachable_goodState h
  omega

/-- Witness for C6 at the freshly initialized state. -/
theorem c6_burn_invariant_witness :
    baseState.config.totalBurned ≤ baseState.config.totalMinted :=
  c6_burn_invariant baseState
    (ReachableW.init 1 baseArgs 0 50 6 baseState rfl)

theorem find?_updateRole (l : List RoleRecord) (a : Nat) (ro : Role)
    (f : RoleRecord → RoleRecord)
    (hf : ∀ r, (f r).address = r.address ∧ (f r).role = r.role)
    {mr : RoleRecord}
    (h : l.find? (fun r => decide (r.address = a ∧ r.role = ro)) = some mr) :
    (updateRole l a ro f).find? (fun r => decide (r.address = a ∧ r.role = ro))
      = some (f mr) := by
  induction l with
  | nil => simp at h
  | cons r t ih =>
    by_cases hc : r.address = a ∧ r.role = ro
    · rw [List.find?_cons_of_pos _ (by simpa using hc)] at h
      unfold updateRole
      rw [List.map_cons, if_pos hc]
      rw [List.find?_cons_of_pos _ (by
        simp only [decide_eq_true_eq]
        exact ⟨((hf r).1).trans hc.1, ((hf r).2).trans hc.2⟩)]
      injection h with hrm
      rw [hrm]
    · rw [List.find?_cons_of_neg _ (by simpa using hc)] at h
      unfold updateRole
      rw [List.map_cons, if_neg hc]
      rw [List.find?_cons_of_neg _ (by simpa using hc)]
      exact ih h

/-! ### Path lemmas for the mint handler -/

theorem mintStep_quota_some {s : TokenState} {m amt t : Nat} {now : Int}
    {mr : RoleRecord} {q : Nat}
    (hp : s.config.paused = false) (hf : findRole s m .minter = some mr)
    (ha : amt ≠ 0) (hq : mr.mintQuota = some q) :
    mintStep s m amt t none now =
      if mr.amountMinted + amt ≤ u64Max then
        if mr.amountMinted + amt ≤ q then mintWithCap s m amt mr none now
        else .error .quotaExceeded
      else .error .arithmeticOverflow := by
  simp [mintStep, hp, hf, ha, hq]

theorem mintStep_quota_none {s : TokenState} {m amt t : Nat} {now : Int}
    {mr : RoleRecord}
    (hp : s.config.paused = false) (hf : findRole s m .minter = some mr)
    (ha : amt ≠ 0) (hq : mr.mintQuota = none) :
    mintStep s m amt t none now = mintWithCap s m amt mr none now := by
  simp [mintStep, hp, hf, ha, hq]

theorem mintWithCap_none {s : TokenState} {m amt : Nat} {now : Int}
    {mr : RoleRecord} :
    mintWithCap s m amt mr none now = mintFinish s m amt mr s.config.supplyCap := rfl

theorem mintFinish_some {s : TokenState} {m amt : Nat} {mr : RoleRecord}
    {cap : Nat} :
    mintFinish s m amt mr (some cap) =
      if s.config.current_supply + amt ≤ u64Max then
        if s.config.current_supply + amt ≤ cap then mintCommit s m amt mr
        else .error .supplyCapExceeded
      else .error .arithmeticOverflow := rfl

theorem mintFinish_none {s : TokenState} {m amt : Nat} {mr : RoleRecord} :
    mintFinish s m amt mr none =
      if s.config.current_supply + amt ≤ u64Max then mintCommit s m amt mr
      else .error .supplyCapExceeded := rfl

theorem mintFinish_ok_commit {s s' : TokenState} {m amt : Nat} {mr : RoleRecord}
    {effCap : Option Nat} (h : mintFinish s m amt mr effCap = .ok s') :
    mintCommit s m amt mr = .ok s' := by
  unfold mintFinish at h
  split at h
  · split at h
    · split at h
      · exact h
      · simp at h
    · simp at h
  · split at h
    · exact h
    · simp at h

theorem mintCommit_ok_state {s s' : TokenState} {m amt : Nat} {mr : RoleRecord}
    (h : mintCommit s m amt mr = .ok s') :
    s.config.totalMinted + amt ≤ u64Max ∧ s.mintSupply + amt ≤ u64Max ∧
    mr.amountMinted + amt ≤ u64Max ∧
    s' = { s with
           config := { s.config with totalMinted := s.config.totalMinted + amt }
           mintSupply := s.mintSupply + amt
           roles := updateRole s.roles m .minter
             (fun r => { r with amountMinted := mr.amountMinted + amt }) } := by
  unfold mintCommit at h
  split at h
  · split at h
    · split at h
      · cases h
        rename_i h1 h2 h3
        exact ⟨h1, h2, h3, rfl⟩
      · simp at h
    · simp at h
  · simp at h

theorem mintCommit_eq_ok {s : TokenState} {m amt : Nat} {mr : RoleRecord}
    (h1 : s.config.totalMinted + amt ≤ u64Max) (h2 : s.mintSupply + amt ≤ u64Max)
    (h3 : mr.amountMinted + amt ≤ u64Max) :
    mintCommit s m amt mr =
      .ok { s with
            config := { s.config with totalMinted := s.config.totalMinted + amt }
            mintSupply := s.mintSupply + amt
            roles := updateRole s.roles m .minter
              (fun r => { r with amountMinted := mr.amountMinted + amt }) } := by
  unfold mintCommit
  rw [if_pos h1, if_pos h2, if_pos h3]

/-! ### Claim C3 -/

/-- `initialize` arguments with a 1 000 token-unit supply cap. -/
def c3Args : InitArgs :=
  { preset := 1, name := "USD", symbol := "USD", uri := "u", decimals := 6,
    supplyCap := some 1000, enablePermanentDelegate := none,
    enableTransferHook := none, defaultAccountFrozen := none }

def c3Init : TokenState := (initToken 1 c3Args 0 50 6).toOption.getD default

def c3MinterState : TokenState :=
  (step c3Init (.grant 1 2 1 0)).toOption.getD default

/-- A mint of 1 000 000 base units with a fresh oracle price of 1 USD
(price 10^8, exponent −8): the converted effective cap is 10^9, far above the
stored cap of 1 000. -/
def c3OracleMintOp : Op := .mint 2 1000000 100 (some ⟨100000000, -8, 0⟩) 0

def c3Final : TokenState := (step c3MinterState c3OracleMintOp).toOption.getD default

/-- Counterexample to claim C3 as stated: a reachable state (init with cap
1 000, grant Minter, oracle-assisted mint of 1 000 000) whose stored
`supply_cap` is `some 1000` while `current_supply()` is 1 000 000. -/
theorem c3_counterexample :
    Reachable c3Final ∧ c3Final.config.supplyCap = some 1000 ∧
    ¬ c3Final.config.current_supply ≤ 1000 := by
  refine ⟨?_, by decide, by decide⟩
  exact ReachableW.next c3OracleMintOp
    (ReachableW.next (.grant 1 2 1 0)
      (ReachableW.init 1 c3Args 0 50 6 c3Init rfl) trivial rfl)
    trivial rfl

/-- Claim C3 (amended): in every state reachable without oracle-assisted
mints, a set supply cap bounds `current_supply()`; and `update_supply_cap`
with a new cap below `current_supply()` fails with `InvalidSupplyCap`. -/
theorem c3_cap_invariant_amended :
    (∀ s, ReachableW noOracleMint s → ∀ cap, s.config.supplyCap = some cap →
        s.config.current_supply ≤ cap) ∧
    (∀ s (admin newCap : Nat), (findRole s admin .admin).isSome = true →
        newCap < s.config.current_supply →
        updateSupplyCapStep s admin (some newCap) = .error .invalidSupplyCap) := by
  constructor
  · intro s h cap hcap
    exact reachable_capInv h cap hcap
  · intro s admin newCap hrole hlt
    have hne : ¬ (findRole s admin .admin).isNone = true := by
      cases hfr : findRole s admin .admin with
      | none => rw [hfr] at hrole; simp at hrole
      | some r => simp
    unfold updateSupplyCapStep
    rw [if_neg hne]
    split
    · rename_i cap heq
      injection heq with heq2
      rw [if_neg (by omega)]
    · rename_i heq
      exact absurd heq (by simp)

/-- Witness for C3 (amended), at the freshly initialized capped state and a
state whose supply (100) exceeds the proposed new cap (50). -/
theorem c3_cap_invariant_amended_witness :
    c3Init.config.current_supply ≤ 1000 ∧
    updateSupplyCapStep baseMintedState 1 (some 50) = .error .invalidSupplyCap := by
  constructor
  · exact c3_cap_invariant_amended.1 c3Init
      (ReachableW.init 1 c3Args 0 50 6 c3Init rfl) 1000 (by decide)
  · exact c3_cap_invariant_amended.2 baseMintedState 1 50 (by decide) (by decide)

/-! ### Claim C4 -/

/-- Counterexample to claim C4 as stated: mint 100 with no quota, then lower
the quota to 50 via `update_minter` — the reachable end state has a Minter
record with `mint_quota = some 50` but `amount_minted = 100`. -/
theorem c4_counterexample :
    Reachable quotaLoweredState ∧ ¬ QuotaInv quotaLoweredState := by
  refine ⟨?_, ?_⟩
  · exact ReachableW.next (.updateMinterQuota 1 2 (some 50))
      (ReachableW.next (.mint 2 100 100 none 0)
        (ReachableW.next (.grant 1 2 1 0)
          (ReachableW.init 1 baseArgs 0 50 6 baseState rfl) trivial rfl)
        trivial rfl)
      trivial rfl
  · intro hq
    have := hq
      { address := 2, role := .minter, grantedBy := 1, grantedAt := 0,
        mintQuota := some 50, amountMinted := 100 }
      (by decide) 50 rfl
    exact absurd this (by decide)

/-- Claim C4 (amended): the quota invariant holds in every state reachable
without `update_minter` requests; `mint` enforces
`amount_minted + amount ≤ q` with a checked add (overflow →
`ArithmeticOverflow`, violation → `QuotaExceeded`) atomically with the
`amount_minted` update; and `update_minter` installs the new quota without
resetting — and without checking — the cumulative-minted counter, which is
how the invariant can be broken. -/
theorem c4_quota_invariant_amended :
    (∀ s, ReachableW notQuotaUpdate s → QuotaInv s) ∧
    (∀ s (m amt t : Nat) (now : Int) (mr : RoleRecord) (q : Nat),
      s.config.paused = false → findRole s m .minter = some mr → amt ≠ 0 →
      mr.mintQuota = some q →
      ((u64Max < mr.amountMinted + amt →
          mintStep s m amt t none now = .error .arithmeticOverflow) ∧
       (mr.amountMinted + amt ≤ u64Max → q < mr.amountMinted + amt →
          mintStep s m amt t none now = .error .quotaExceeded) ∧
       (∀ s', mintStep s m amt t none now = .ok s' →
          findRole s' m .minter =
            some { mr with amountMinted := mr.amountMinted + amt }))) ∧
    (∀ s (a m : Nat) (q : Option Nat) (mr : RoleRecord) s',
      findRole s m .minter = some mr →
      updateMinterQuotaStep s a m q = .ok s' →
      findRole s' m .minter = some { mr with mintQuota := q }) := by
  refine ⟨fun s h => reachable_quotaInv h, ?_, ?_⟩
  · intro s m amt t now mr q hp hf ha hq
    refine ⟨?_, ?_, ?_⟩
    · intro hover
      rw [mintStep_quota_some hp hf ha hq, if_neg (by omega)]
    · intro hfits hviol
      rw [mintStep_quota_some hp hf ha hq, if_pos hfits, if_neg (by omega)]
    · intro s' hok
      rw [mintStep_quota_some hp hf ha hq] at hok
      split at hok
      · split at hok
        · rw [mintWithCap_none] at hok
          have hc := mintCommit_ok_state (mintFinish_ok_commit hok)
          rw [hc.2.2.2]
          exact find?_updateRole s.roles m .minter
            (fun r => { r with amountMinted := mr.amountMinted + amt })
            (fun r => ⟨rfl, rfl⟩) hf
        · simp at hok
      · simp at hok
  · intro s a m q mr s' hf hok
    unfold updateMinterQuotaStep at hok
    split at hok
    · simp at hok
    · split at hok
      · simp at hok
      · rename_i mr0 hf0
        cases hok
        exact find?_updateRole s.roles m .minter
          (fun r => { r with mintQuota := q })
          (fun r => ⟨rfl, rfl⟩) hf

/-- Witness for C4 (amended): the invariant at the fresh state; the quota
rejection at a state whose minter (quota 10, minted 100) is over-quota; and
the quota update on the base minted state. -/
theorem c4_quota_invariant_amended_witness :
    QuotaInv baseState ∧
    mintStep quotaLoweredState 2 1 100 none 0 = .error .quotaExceeded ∧
    findRole quotaLoweredState 2 .minter =
      some { address := 2, role := .minter, grantedBy := 1, grantedAt := 0,
             mintQuota := some 50, amountMinted := 100 } := by
  refine ⟨c4_quota_invariant_amended.1 baseState
      (ReachableW.init 1 baseArgs 0 50 6 baseState rfl), ?_, ?_⟩
  · exact (c4_quota_invariant_amended.2.1 quotaLoweredState 2 1 100 0
      { address := 2, role := .minter, grantedBy := 1, grantedAt := 0,
        mintQuota := some 50, amountMinted := 100 } 50
      (by decide) (by decide) (by decide) rfl).2.1 (by decide) (by decide)
  · exact c4_quota_invariant_amended.2.2 baseMintedState 1 2 (some 50)
      { address := 2, role := .minter, grantedBy := 1, grantedAt := 0,
        mintQuota := none, amountMinted := 100 } quotaLoweredState
      (by decide) rfl

/-! ### Claim C5 -/

/-- `initialize` arguments with a 1 000 000 token-unit supply cap. -/
def c5Args : InitArgs :=
  { preset := 1, name := "USD", symbol := "USD", uri := "u", decimals := 6,
    supplyCap := some 1000000, enablePermanentDelegate := none,
    enableTransferHook := none, defaultAccountFrozen := none }

def c5Init : TokenState := (initToken 1 c5Args 0 50 6).toOption.getD default

def c5Minter : TokenState :=
  (step c5Init (.grant 1 2 1 0)).toOption.getD default

def c5AfterFirst : TokenState :=
  (step c5Minter (.mint 2 500000 100 none 0)).toOption.getD default

def c5AfterThird : TokenState :=
  (step c5AfterFirst (.mint 2 500000 100 none 0)).toOption.getD default

/-- Claim C5: mint by an authorized Minter on an unpaused token within quota,
with a cap set and no oracle: the checked-arithmetic outcome classification
(`ArithmeticOverflow` on either checked add overflowing, `SupplyCapExceeded`
when the post-mint supply exceeds the cap, and otherwise success incrementing
`total_minted` by `amount`), together with the concrete
cap = 1 000 000 scenario: mint 500 000 succeeds, a further 500 001 fails with
`SupplyCapExceeded`, a further 500 000 succeeds leaving supply 1 000 000. -/
theorem c5_mint_cap_check :
    (∀ (s : TokenState) (m amt t cap : Nat) (now : Int) (mr : RoleRecord),
      GoodState s →
      s.config.paused = false →
      findRole s m .minter = some mr →
      amt ≠ 0 →
      (∀ q, mr.mintQuota = some q →
        mr.amountMinted + amt ≤ u64Max ∧ mr.amountMinted + amt ≤ q) →
      s.config.supplyCap = some cap →
      ((u64Max < s.config.current_supply + amt →
         mintStep s m amt t none now = .error .arithmeticOverflow) ∧
       (s.config.current_supply + amt ≤ u64Max →
         cap < s.config.totalMinted + amt - s.config.totalBurned →
         mintStep s m amt t none now = .error .supplyCapExceeded) ∧
       (s.config.current_supply + amt ≤ u64Max →
         s.config.totalMinted + amt - s.config.totalBurned ≤ cap →
         u64Max < s.config.totalMinted + amt →
         mintStep s m amt t none now = .error .arithmeticOverflow) ∧
       (s.config.totalMinted + amt - s.config.totalBurned ≤ cap →
         s.config.totalMinted + amt ≤ u64Max →
         ∃ s', mintStep s m amt t none now = .ok s' ∧
           s'.config.totalMinted = s.config.totalMinted + amt ∧
           s'.config.totalBurned = s.config.totalBurned ∧
           s'.config.current_supply = s.config.current_supply + amt))) ∧
    (step c5Minter (.mint 2 500000 100 none 0) = .ok c5AfterFirst ∧
     c5AfterFirst.config.current_supply = 500000 ∧
     step c5AfterFirst (.mint 2 500001 100 none 0) = .error .supplyCapExceeded ∧
     step c5AfterFirst (.mint 2 500000 100 none 0) = .ok c5AfterThird ∧
     c5AfterThird.config.current_supply = 1000000) := by
  constructor
  · intro s m amt t cap now mr hg hp hf ha hquota hcap
    obtain ⟨hsup, hamt, hnd⟩ := hg
    have hcs : s.config.current_supply = s.config.totalMinted - s.config.totalBurned := rfl
    have hb : s.config.totalBurned ≤ s.config.totalMinted := by omega
    have hstep : mintStep s m amt t none now = mintFinish s m amt mr (some cap) := by
      cases hmq : mr.mintQuota with
      | none => rw [mintStep_quota_none hp hf ha hmq, mintWithCap_none, hcap]
      | some q =>
        obtain ⟨h1, h2⟩ := hquota q hmq
        rw [mintStep_quota_some hp hf ha hmq, if_pos h1, if_pos h2,
          mintWithCap_none, hcap]
    refine ⟨?_, ?_, ?_, ?_⟩
    · intro hover
      rw [hstep, mintFinish_some, if_neg (by omega)]
    · intro hfit hcapv
      rw [hstep, mintFinish_some, if_pos hfit, if_neg (by omega)]
    · intro hfit hle hoverM
      rw [hstep, mintFinish_some, if_pos hfit, if_pos (by omega)]
      unfold mintCommit
      rw [if_neg (by omega)]
    · intro hle hfitM
      have hmem := (findRole_mem hf).1
      have hamtb := hamt mr hmem
      have h3 : mr.amountMinted + amt ≤ u64Max := by
        cases hmq : mr.mintQuota with
        | some q => exact (hquota q hmq).1
        | none => omega
      rw [hstep, mintFinish_some, if_pos (by omega), if_pos (by omega),
        mintCommit_eq_ok hfitM (by omega) h3]
      refine ⟨_, rfl, rfl, rfl, ?_⟩
      unfold StablecoinConfig.current_supply
      simp only
      omega
  · exact ⟨rfl, by decide, rfl, rfl, by decide⟩

/-- Witness for C5 at the concrete capped state: the success branch of the
classification applied to a mint of 500 000 from supply 0. -/
theorem c5_mint_cap_check_witness :
    ∃ s', mintStep c5Minter 2 500000 100 none 0 = .ok s' ∧
      s'.config.totalMinted = c5Minter.config.totalMinted + 500000 ∧
      s'.config.totalBurned = c5Minter.config.totalBurned ∧
      s'.config.current_supply = c5Minter.config.current_supply + 500000 := by
  have hg : GoodState c5Minter :=
    reachable_goodState (P := fun _ => True)
      (ReachableW.next (.grant 1 2 1 0)
        (ReachableW.init 1 c5Args 0 50 6 c5Init rfl) trivial rfl)
  exact (c5_mint_cap_check.1 c5Minter 2 500000 100 1000000 0
    { address := 2, role := .minter, grantedBy := 1, grantedAt := 0,
      mintQuota := none, amountMinted := 0 }
    hg (by decide) (by decide) (by decide) (fun q h => nomatch h)
    (by decide)).2.2.2 (by decide) (by decide)

/-! ### Claim C7 -/

/-- Flip only the pause flag of a state. -/
def setPaused (s : TokenState) (b : Bool) : TokenState :=
  { s with config := { s.config with paused := b } }

/-- Claim C7: with `paused = true`, mint, burn, freeze and thaw always fail
with `Paused` (the config's Anchor constraint runs before everything else);
`seize` never consults the pause flag (its outcome commutes with flipping the
flag) and succeeds for a Seizer-capability holder with a positive amount and
a sufficiently funded source account, paused or not. -/
theorem c7_no_pause_bypass :
    (∀ (s : TokenState) (m amt t : Nat) (oracle : Option OracleData) (now : Int),
        s.config.paused = true → mintStep s m amt t oracle now = .error .paused) ∧
    (∀ (s : TokenState) (b amt f : Nat),
        s.config.paused = true → burnStep s b amt f = .error .paused) ∧
    (∀ (s : TokenState) (f acct : Nat),
        s.config.paused = true → freezeStep s f acct = .error .paused) ∧
    (∀ (s : TokenState) (f acct : Nat),
        s.config.paused = true → thawStep s f acct = .error .paused) ∧
    (∀ (s : TokenState) (b : Bool) (z amt f t : Nat),
        seizeStep (setPaused s b) z amt f t =
          (seizeStep s z amt f t).map (fun s' => setPaused s' b)) ∧
    (∀ (s : TokenState) (z amt f t : Nat) (r : RoleRecord),
        findRole s z .seizer = some r → amt ≠ 0 → amt ≤ s.mintSupply →
        seizeStep s z amt f t = .ok s) := by
  refine ⟨?_, ?_, ?_, ?_, ?_, ?_⟩
  · intro s m amt t oracle now h
    simp [mintStep, h]
  · intro s b amt f h
    simp [burnStep, h]
  · intro s f acct h
    simp [freezeStep, h]
  · intro s f acct h
    simp [thawStep, h]
  · intro s b z amt f t
    unfold seizeStep
    have hfr : findRole (setPaused s b) z Role.seizer = findRole s z Role.seizer := rfl
    rw [hfr]
    cases findRole s z Role.seizer with
    | none => rfl
    | some r =>
      by_cases h0 : amt = 0
      · simp [h0, Except.map]
      · by_cases h1 : amt ≤ s.mintSupply
        · have h1' : amt ≤ (setPaused s b).mintSupply := h1
          simp [h0, h1, h1', Except.map]
        · have h1' : ¬ amt ≤ (setPaused s b).mintSupply := h1
          simp [h0, h1, h1', Except.map]
  · intro s z amt f t r hr h0 h1
    simp [seizeStep, hr, h0, h1]

/-- A concrete paused state holding one Seizer capability, for the C7
witness. -/
def pausedExample : TokenState :=
  { config :=
      { authority := 1, mint := 50, preset := 1, paused := true,
        supplyCap := none, totalMinted := 100, totalBurned := 0,
        name := "USD", symbol := "USD", uri := "u", decimals := 6,
        enablePermanentDelegate := true, enableTransferHook := false,
        defaultAccountFrozen := false, adminCount := 0 }
    roles := [{ address := 3, role := .seizer, grantedBy := 1, grantedAt := 0,
                mintQuota := none, amountMinted := 0 }]
    mintSupply := 100
    mintDecimals := 6
    frozenAccounts := [] }

/-- Witness for C7 at the paused example state. -/
theorem c7_no_pause_bypass_witness :
    mintStep pausedExample 2 5 100 none 0 = .error .paused ∧
    burnStep pausedExample 2 5 100 = .error .paused ∧
    freezeStep pausedExample 2 100 = .error .paused ∧
    thawStep pausedExample 2 100 = .error .paused ∧
    seizeStep (setPaused pausedExample false) 3 5 100 101 =
      (seizeStep pausedExample 3 5 100 101).map (fun s' => setPaused s' false) ∧
    seizeStep pausedExample 3 5 100 101 = .ok pausedExample := by
  refine ⟨c7_no_pause_bypass.1 pausedExample 2 5 100 none 0 rfl,
    c7_no_pause_bypass.2.1 pausedExample 2 5 100 rfl,
    c7_no_pause_bypass.2.2.1 pausedExample 2 100 rfl,
    c7_no_pause_bypass.2.2.2.1 pausedExample 2 100 rfl,
    c7_no_pause_bypass.2.2.2.2.1 pausedExample false 3 5 100 101,
    c7_no_pause_bypass.2.2.2.2.2 pausedExample 3 5 100 101
      { address := 3, role := .seizer, grantedBy := 1, grantedAt := 0,
        mintQuota := none, amountMinted := 0 } rfl (by decide) (by decide)⟩

/-! ### Claim C9 -/

/-- Counterexample to claim C9 as stated: when program-owned records exist at
both derived deny-list addresses, the hook rejects with `SenderBlacklisted`
(the sender check runs first), so "rejected with ReceiverBlacklisted exactly
when such an account exists at the receiver address" fails. -/
theorem c9_counterexample :
    ((⟨1, 7⟩ : HookAccount).dataLen ≠ 0 ∧ (⟨1, 7⟩ : HookAccount).owner = 7) ∧
    handler_transfer_hook 7 ⟨1, 7⟩ ⟨1, 7⟩ 5 = .error .senderBlacklisted ∧
    ¬ handler_transfer_hook 7 ⟨1, 7⟩ ⟨1, 7⟩ 5 = .error .receiverBlacklisted := by
  refine ⟨by decide, rfl, ?_⟩
  intro h
  rw [show handler_transfer_hook 7 ⟨1, 7⟩ ⟨1, 7⟩ 5
      = .error .senderBlacklisted from rfl] at h
  injection h with h2
  cases h2

/-- Claim C9 (amended): the hook rejects with `SenderBlacklisted` exactly
when a non-empty program-owned account sits at the derived sender deny-list
address; with `ReceiverBlacklisted` exactly when such an account sits at the
receiver address and none at the sender address (the sender check takes
priority); and allows the transfer exactly when neither side has such a
record — an account at either address owned by another program, or with
empty data, does not deny. -/
theorem c9_denylist_gate_amended :
    ∀ (pid amt : Nat) (sb rb : HookAccount),
      (handler_transfer_hook pid sb rb amt = .error .senderBlacklisted ↔
        (sb.dataLen ≠ 0 ∧ sb.owner = pid)) ∧
      (handler_transfer_hook pid sb rb amt = .error .receiverBlacklisted ↔
        (¬ (sb.dataLen ≠ 0 ∧ sb.owner = pid) ∧ rb.dataLen ≠ 0 ∧ rb.owner = pid)) ∧
      (handler_transfer_hook pid sb rb amt = .ok () ↔
        (¬ (sb.dataLen ≠ 0 ∧ sb.owner = pid) ∧ ¬ (rb.dataLen ≠ 0 ∧ rb.owner = pid))) := by
  intro pid amt sb rb
  unfold handler_transfer_hook
  by_cases h1 : ¬ sb.dataLen = 0 ∧ sb.owner = pid
  · rw [if_pos h1]
    refine ⟨?_, ?_, ?_⟩
    · simp [h1]
    · constructor
      · intro h
        injection h with h2
        cases h2
      · rintro ⟨hn, _⟩
        exact absurd h1 hn
    · constructor
      · intro h
        cases h
      · rintro ⟨hn, _⟩
        exact absurd h1 hn
  · rw [if_neg h1]
    by_cases h2 : ¬ rb.dataLen = 0 ∧ rb.owner = pid
    · rw [if_pos h2]
      refine ⟨?_, ?_, ?_⟩
      · constructor
        · intro h
          injection h with h3
          cases h3
        · intro hs
          exact absurd hs h1
      · simp [h1, h2]
      · constructor
        · intro h
          cases h
        · rintro ⟨_, hn⟩
          exact absurd h2 hn
    · rw [if_neg h2]
      refine ⟨?_, ?_, ?_⟩
      · constructor
        · intro h
          cases h
        · intro hs
          exact absurd hs h1
      · constructor
        · intro h
          cases h
        · rintro ⟨_, hr⟩
          exact absurd hr h2
      · simp [h1, h2]

/-! ### Claim C10 -/

/-- The mint handler's per-minter quota precondition passing: when a quota is
set, the checked add fits and stays within the quota. -/
def quotaPass (mr : RoleRecord) (amt : Nat) : Prop :=
  match mr.mintQuota with
  | some q => mr.amountMinted + amt ≤ u64Max ∧ mr.amountMinted + amt ≤ q
  | none => True

/-- Claim C10: under `total_burned ≤ total_minted` (with the ledger supply
agreeing with the counters), a positive-amount, oracle-free mint that passes
the pause, role and quota preconditions succeeds exactly when
`StablecoinConfig::can_mint` returns true, and both reject exactly when
`total_minted + amount` overflows `u64` or, with a cap set, the post-mint
supply would exceed it. -/
theorem c10_can_mint_agrees :
    ∀ (s : TokenState) (m amt t : Nat) (now : Int) (mr : RoleRecord),
      s.config.totalBurned ≤ s.config.totalMinted →
      s.mintSupply + s.config.totalBurned = s.config.totalMinted →
      s.config.paused = false →
      findRole s m .minter = some mr →
      amt ≠ 0 →
      quotaPass mr amt →
      mr.amountMinted + amt ≤ u64Max →
      (((∃ s', mintStep s m amt t none now = .ok s') ↔
          s.config.can_mint amt = true) ∧
       (s.config.can_mint amt = false ↔
          (u64Max < s.config.totalMinted + amt ∨
           ∃ cap, s.config.supplyCap = some cap ∧
             cap < s.config.totalMinted + amt - s.config.totalBurned))) := by
  intro s m amt t now mr hb hledger hp hf ha hq hfits
  have hstep : mintStep s m amt t none now = mintFinish s m amt mr s.config.supplyCap := by
    cases hmq : mr.mintQuota with
    | none => rw [mintStep_quota_none hp hf ha hmq, mintWithCap_none]
    | some q =>
      have hq' := hq
      unfold quotaPass at hq'
      rw [hmq] at hq'
      rw [mintStep_quota_some hp hf ha hmq, if_pos hq'.1, if_pos hq'.2,
        mintWithCap_none]
  have hcs : s.config.current_supply = s.config.totalMinted - s.config.totalBurned := rfl
  cases hcap : s.config.supplyCap with
  | some cap =>
    have hcm : s.config.can_mint amt = true ↔
        (s.config.totalMinted + amt ≤ u64Max ∧
         s.config.totalMinted + amt - s.config.totalBurned ≤ cap) := by
      unfold StablecoinConfig.can_mint checkedAdd64
      rw [hcap]
      by_cases hC1 : s.config.totalMinted + amt ≤ u64Max
      · simp [hC1]
      · simp [hC1]
    constructor
    · rw [hstep, hcap, mintFinish_some, hcm]
      constructor
      · rintro ⟨s', hs'⟩
        by_cases hA1 : s.config.current_supply + amt ≤ u64Max
        · rw [if_pos hA1] at hs'
          by_cases hA2 : s.config.current_supply + amt ≤ cap
          · rw [if_pos hA2] at hs'
            have hcc := mintCommit_ok_state hs'
            exact ⟨hcc.1, by omega⟩
          · rw [if_neg hA2] at hs'
            simp at hs'
        · rw [if_neg hA1] at hs'
          simp at hs'
      · rintro ⟨hC1, hC2⟩
        rw [if_pos (by omega), if_pos (by omega),
          mintCommit_eq_ok hC1 (by omega) hfits]
        exact ⟨_, rfl⟩
    · have hfalse : s.config.can_mint amt = false ↔ ¬ s.config.can_mint amt = true := by
        simp
      rw [hfalse, hcm]
      constructor
      · intro hn
        by_cases hC1 : s.config.totalMinted + amt ≤ u64Max
        · right
          refine ⟨cap, rfl, ?_⟩
          by_contra hle
          exact hn ⟨hC1, by omega⟩
        · left; omega
      · rintro (h | ⟨cap', hcap', hlt⟩) ⟨h1, h2⟩
        · omega
        · injection hcap' with he
          omega
  | none =>
    have hcm : s.config.can_mint amt = true ↔
        s.config.totalMinted + amt ≤ u64Max := by
      unfold StablecoinConfig.can_mint checkedAdd64
      rw [hcap]
      by_cases hC1 : s.config.totalMinted + amt ≤ u64Max
      · simp [hC1]
      · simp [hC1]
    constructor
    · rw [hstep, hcap, mintFinish_none, hcm]
      constructor
      · rintro ⟨s', hs'⟩
        by_cases hA1 : s.config.current_supply + amt ≤ u64Max
        · rw [if_pos hA1] at hs'
          exact (mintCommit_ok_state hs').1
        · rw [if_neg hA1] at hs'
          simp at hs'
      · intro hC1
        rw [if_pos (by omega), mintCommit_eq_ok hC1 (by omega) hfits]
        exact ⟨_, rfl⟩
    · have hfalse : s.config.can_mint amt = false ↔ ¬ s.config.can_mint amt = true := by
        simp
      rw [hfalse, hcm]
      constructor
      · intro hn
        left
        omega
      · rintro (h | ⟨cap', hcap', hlt⟩)
        · omega
        · cases hcap'

/-- Witness for C10 at the concrete capped state: the equivalence applied to
a mint of 500 000 from supply 0, whose `can_mint` is true. -/
theorem c10_can_mint_agrees_witness :
    (∃ s', mintStep c5Minter 2 500000 100 none 0 = .ok s') ∧
    c5Minter.config.can_mint 500000 = true := by
  refine ⟨?_, by decide⟩
  exact (c10_can_mint_agrees c5Minter 2 500000 100 0
    { address := 2, role := .minter, grantedBy := 1, grantedAt := 0,
      mintQuota := none, amountMinted := 0 }
    (by decide) (by decide) (by decide) (by decide) (by decide)
    (by trivial) (by decide)).1.mpr (by decide)

/-! ### Claim C8 -/

/-- Claim C8: the oracle cap converter.  With no USD cap it returns `none`
without consulting the price; with a cap, a fresh (age ≤ 120 s) positive
price and exponent `e` it returns exactly
`⌊c·10^d·10^|e| / p⌋` for `e < 0` and `⌊c·10^d / (p·10^e)⌋` for `e ≥ 0`,
clamped to the maximum `u64`, with any overflowing 128-bit intermediate
product failing as `ArithmeticOverflow`; the `d ≤ 38` and `|e| ≤ 38` bounds
confine the statement to the domain where Rust's `10u128.pow` cannot itself
overflow, so the `Nat` model is exact.  Concretely,
price 10^8 at exponent −8 with 6 decimals converts a 1 000 000 USD cap to
exactly 10^12 base units, while a stale or non-positive price is rejected. -/
theorem c8_oracle_cap_conversion :
    (∀ (od : OracleData) (now : Int) (d : Nat),
        adjust_cap_with_oracle none od now d = .ok none) ∧
    (∀ (c : Nat) (od : OracleData) (now : Int) (d : Nat),
        now - 120 ≤ od.publishTime → 0 < od.price → d ≤ 38 →
        ((od.expo < 0 → od.expo.natAbs ≤ 38 →
          ((c * 10 ^ d * 10 ^ od.expo.natAbs ≤ u128Max →
            adjust_cap_with_oracle (some c) od now d =
              .ok (some (min (c * 10 ^ d * 10 ^ od.expo.natAbs / od.price.toNat)
                u64Max))) ∧
           (u128Max < c * 10 ^ d * 10 ^ od.expo.natAbs →
            adjust_cap_with_oracle (some c) od now d = .error .arithmeticOverflow))) ∧
         (0 ≤ od.expo → od.expo.toNat ≤ 38 →
          ((c * 10 ^ d ≤ u128Max → od.price.toNat * 10 ^ od.expo.toNat ≤ u128Max →
            adjust_cap_with_oracle (some c) od now d =
              .ok (some (min (c * 10 ^ d / (od.price.toNat * 10 ^ od.expo.toNat))
                u64Max))) ∧
           (¬ (c * 10 ^ d ≤ u128Max ∧
               od.price.toNat * 10 ^ od.expo.toNat ≤ u128Max) →
            adjust_cap_with_oracle (some c) od now d = .error .arithmeticOverflow))))) ∧
    (adjust_cap_with_oracle (some 1000000) ⟨100000000, -8, 0⟩ 0 6 =
      .ok (some 1000000000000)) ∧
    (adjust_cap_with_oracle (some 1000000) ⟨100000000, -8, 0⟩ 130 6 =
      .error .oraclePriceStale) ∧
    (adjust_cap_with_oracle (some 1000000) ⟨0, -8, 0⟩ 0 6 =
      .error .invalidOraclePrice) := by
  refine ⟨fun od now d => rfl, ?_, rfl, rfl, rfl⟩
  intro c od now d hfresh hpos hd
  have h120 : (ORACLE_MAX_AGE_SECS : Int) = 120 := rfl
  have hpz : ¬ od.price.toNat = 0 := by
    rw [Int.toNat_eq_zero]
    omega
  constructor
  · intro he habs
    constructor
    · intro hfit
      have h1 : c * 10 ^ d ≤ u128Max :=
        le_trans (Nat.le_mul_of_pos_right _ (pow_pos (by norm_num) _)) hfit
      simp only [adjust_cap_with_oracle]
      rw [if_neg (by omega), if_neg (by omega), if_pos he, if_pos h1,
        if_pos hfit, if_neg hpz]
    · intro hover
      simp only [adjust_cap_with_oracle]
      rw [if_neg (by omega), if_neg (by omega), if_pos he]
      by_cases h1 : c * 10 ^ d ≤ u128Max
      · rw [if_pos h1, if_neg (by omega)]
      · rw [if_neg h1]
  · intro he0 hexp
    constructor
    · intro h1 h2
      have hden : ¬ od.price.toNat * 10 ^ od.expo.toNat = 0 :=
        Nat.mul_ne_zero hpz (pow_ne_zero _ (by norm_num))
      simp only [adjust_cap_with_oracle]
      rw [if_neg (by omega), if_neg (by omega), if_neg (by omega), if_pos h1,
        if_pos h2, if_neg hden]
    · intro hn
      simp only [adjust_cap_with_oracle]
      rw [if_neg (by omega), if_neg (by omega), if_neg (by omega)]
      by_cases h1 : c * 10 ^ d ≤ u128Max
      · rw [if_pos h1, if_neg (fun h2 => hn ⟨h1, h2⟩)]
      · rw [if_neg h1]

/-- Witness for C8: the general negative-exponent success branch applied to
the concrete scenario, whose clamped quotient is exactly 10^12. -/
theorem c8_oracle_cap_conversion_witness :
    adjust_cap_with_oracle (some 1000000) ⟨100000000, -8, 0⟩ 0 6 =
      .ok (some (min (1000000 * 10 ^ 6 * 10 ^ ((-8 : Int).natAbs)
        / (100000000 : Int).toNat) u64Max)) ∧
    min (1000000 * 10 ^ 6 * 10 ^ ((-8 : Int).natAbs)
      / (100000000 : Int).toNat) u64Max = 1000000000000 := by
  constructor
  · exact ((c8_oracle_cap_conversion.2.1 1000000 ⟨100000000, -8, 0⟩ 0 6
      (by decide) (by decide) (by decide)).1 (by decide) (by decide)).1 (by decide)
  · decide

end SSS
